import Mathlib

/-!
Verification of the JSONC models-section locator and splicer
(`jsonc_update_models.py`).

The source operates on Python strings with integer cursors.  We embed a
document as a `List Char` and a cursor as a `Nat`.  Python's `-1` sentinel
for "not found" is kept, so the locator functions return `Int`.  Loops that
advance a cursor are embedded with an explicit fuel argument; the top-level
wrappers pass fuel `content.length + 1`, which is enough because every
iteration strictly increases the cursor while it stays at most
`content.length` (proved below).
-/

/-- Named characters, kept out of string literals for clarity. -/
def lbrace : Char := '\x7b'

/-- The closing brace character. -/
def rbrace : Char := '\x7d'

/-- The double-quote character. -/
def dquote : Char := '\x22'

/-- The single-quote character. -/
def squote : Char := '\x27'

/-- The backslash character. -/
def bslash : Char := '\x5c'

/-- Does `pat` occur as the prefix of `l`?  This is the comparison
`l[0:len(pat)] == pat` used by the source on slices. -/
def prefixMatches (pat l : List Char) : Bool :=
  decide (l.take pat.length = pat)

/-- Embedding of the Python slice test `content[i:i+len(pat)] == pat`. -/
def sliceEq (c : List Char) (i : Nat) (pat : List Char) : Bool :=
  prefixMatches pat (c.drop i)

/-- Fueled scan behind `pyFind`: from index `j`, return the first index at
which `pat` occurs in `c`, or `-1`.  Mirrors Python `str.find(pat, j)`. -/
def pyFindAux (c pat : List Char) : Nat → Nat → Int
  | 0, _ => -1
  | fuel + 1, j =>
    if c.length < j + pat.length then -1
    else if sliceEq c j pat then (j : Int)
    else pyFindAux c pat fuel (j + 1)

/-- Embedding of Python `content.find(pat, start)`: the least index `≥ start`
where `pat` occurs, or `-1` if there is none. -/
def pyFind (c pat : List Char) (start : Nat) : Int :=
  pyFindAux c pat (c.length + 1) start

/-- Fueled embedding of the string-scanning `while` loop inside
`skip_comment_or_string`: cursor `i` advances by two after a backslash that
has a successor, stops one past a closing quote `q`, otherwise advances by
one; when the cursor reaches the end the loop returns it. -/
def skipStringAux (c : List Char) (q : Char) : Nat → Nat → Nat
  | 0, i => i
  | fuel + 1, i =>
    if i < c.length then
      if c.get? i = some bslash ∧ i + 1 < c.length then skipStringAux c q fuel (i + 2)
      else if c.get? i = some q then i + 1
      else skipStringAux c q fuel (i + 1)
    else i

/-- The string-scanning loop of `skip_comment_or_string`, entered at `j`
(one past the opening quote `q`). -/
def skipString (c : List Char) (q : Char) (j : Nat) : Nat :=
  skipStringAux c q (c.length + 1) j

/-- Embedding of `skip_comment_or_string(content, i)`: skip over a line
comment, block comment, double- or single-quoted string starting at `i`;
otherwise return `i` unchanged. -/
def skip_comment_or_string (c : List Char) (i : Nat) : Nat :=
  if c.length ≤ i then i
  else if sliceEq c i ['/', '/'] then
    let e := pyFind c ['\n'] i
    if e = -1 then c.length else e.toNat + 1
  else if sliceEq c i ['/', '*'] then
    let e := pyFind c ['*', '/'] (i + 2)
    if e = -1 then c.length else e.toNat + 2
  else if c.get? i = some dquote then skipString c dquote (i + 1)
  else if c.get? i = some squote then skipString c squote (i + 1)
  else i

/-- Fueled embedding of the `while` loop of `find_key_position`: at each
position first let the skipper advance; if it did not, test the key pattern,
else move one character forward. -/
def fkpAux (c pat : List Char) : Nat → Nat → Int
  | 0, _ => -1
  | fuel + 1, i =>
    if i < c.length then
      let ni := skip_comment_or_string c i
      if ni ≠ i then fkpAux c pat fuel ni
      else if sliceEq c i pat then (i : Int)
      else fkpAux c pat fuel (i + 1)
    else -1

/-- Embedding of `find_key_position(content, key, start)`: search for the
exact token `"key"` (with double quotes) from `start`; `-1` if not found. -/
def find_key_position (c key : List Char) (start : Nat) : Int :=
  fkpAux c (dquote :: (key ++ [dquote])) (c.length + 1) start

/-- Fueled embedding of the `while` loop of `find_object_start`. -/
def fosAux (c : List Char) : Nat → Nat → Int
  | 0, _ => -1
  | fuel + 1, i =>
    if i < c.length then
      let ni := skip_comment_or_string c i
      if ni ≠ i then fosAux c fuel ni
      else if c.get? i = some lbrace then (i : Int)
      else if c.get? i = some '[' then -1
      else fosAux c fuel (i + 1)
    else -1

/-- Embedding of `find_object_start(content, key_pos)`: the next structural
`{` after `key_pos`, `-1` if a `[` comes first or the document ends. -/
def find_object_start (c : List Char) (key_pos : Nat) : Int :=
  fosAux c (c.length + 1) key_pos

/-- Fueled embedding of the `while` loop of `find_object_end`, carrying the
brace depth `d` (`brace_count` in the source). -/
def foeAux (c : List Char) : Nat → Nat → Nat → Nat
  | 0, i, _ => i
  | fuel + 1, i, d =>
    if i < c.length ∧ 0 < d then
      let ni := skip_comment_or_string c i
      if ni ≠ i then foeAux c fuel ni d
      else if c.get? i = some lbrace then foeAux c fuel (i + 1) (d + 1)
      else if c.get? i = some rbrace then
        if d - 1 = 0 then i else foeAux c fuel (i + 1) (d - 1)
      else foeAux c fuel (i + 1) d
    else i

/-- Embedding of `find_object_end(content, start)`: depth-counted scan for
the brace matching the `{` at `start`, returning the final cursor when the
depth never closes. -/
def find_object_end (c : List Char) (start : Nat) : Nat :=
  foeAux c (c.length + 1) (start + 1) 1

/-- Embedding of `find_models_section(content)`: locate `provider`, then
`nanogpt` inside the provider object, then `models` inside the nanogpt
object, and return the span of the models object. -/
def find_models_section (c : List Char) : Option (Nat × Nat) :=
  let provider_pos := find_key_position c "provider".data 0
  if provider_pos = -1 then none
  else
    let provider_object_start := find_object_start c provider_pos.toNat
    if provider_object_start = -1 then none
    else
      let nanogpt_pos := find_key_position c "nanogpt".data (provider_object_start.toNat + 1)
      if nanogpt_pos = -1 then none
      else
        let provider_object_end := find_object_end c provider_object_start.toNat
        if (provider_object_end : Int) ≤ nanogpt_pos then none
        else
          let nanogpt_object_start := find_object_start c nanogpt_pos.toNat
          if nanogpt_object_start = -1 then none
          else
            let models_pos := find_key_position c "models".data (nanogpt_object_start.toNat + 1)
            if models_pos = -1 then none
            else
              let nanogpt_object_end := find_object_end c nanogpt_object_start.toNat
              if (nanogpt_object_end : Int) ≤ models_pos then none
              else
                let models_object_start := find_object_start c models_pos.toNat
                if models_object_start = -1 then none
                else
                  let models_object_end := find_object_end c models_object_start.toNat
                  some (models_object_start.toNat, models_object_end)

/-- Embedding of `update_models_section(content, new_models)`: splice
`new_models` into the resolved span, or raise (`Except.error`) when the
models section is not found. -/
def update_models_section (c new_models : List Char) : Except String (List Char) :=
  match find_models_section c with
  | none => Except.error "Could not find models section in provider.nanogpt"
  | some (models_start, models_end) =>
    Except.ok (c.take (models_start + 1) ++ new_models ++ c.drop models_end)

/-- `find_key_position` with the loop fuel made a parameter: used to state
that the fixed fuel `length + 1` is already in the stable regime, i.e. that
the loop terminates before exhausting it. -/
def find_key_positionFuel (fuel : Nat) (c key : List Char) (start : Nat) : Int :=
  fkpAux c (dquote :: (key ++ [dquote])) fuel start

/-- `find_object_start` with the loop fuel made a parameter. -/
def find_object_startFuel (fuel : Nat) (c : List Char) (key_pos : Nat) : Int :=
  fosAux c fuel key_pos

/-- `find_object_end` with the loop fuel made a parameter. -/
def find_object_endFuel (fuel : Nat) (c : List Char) (start : Nat) : Nat :=
  foeAux c fuel (start + 1) 1

/-- `find_models_section` with every loop's fuel made a parameter: the same
composition of locator and matcher calls, each running on the given fuel. -/
def find_models_sectionFuel (fuel : Nat) (c : List Char) : Option (Nat × Nat) :=
  let provider_pos := find_key_positionFuel fuel c "provider".data 0
  if provider_pos = -1 then none
  else
    let provider_object_start := find_object_startFuel fuel c provider_pos.toNat
    if provider_object_start = -1 then none
    else
      let nanogpt_pos := find_key_positionFuel fuel c "nanogpt".data (provider_object_start.toNat + 1)
      if nanogpt_pos = -1 then none
      else
        let provider_object_end := find_object_endFuel fuel c provider_object_start.toNat
        if (provider_object_end : Int) ≤ nanogpt_pos then none
        else
          let nanogpt_object_start := find_object_startFuel fuel c nanogpt_pos.toNat
          if nanogpt_object_start = -1 then none
          else
            let models_pos := find_key_positionFuel fuel c "models".data (nanogpt_object_start.toNat + 1)
            if models_pos = -1 then none
            else
              let nanogpt_object_end := find_object_endFuel fuel c nanogpt_object_start.toNat
              if (nanogpt_object_end : Int) ≤ models_pos then none
              else
                let models_object_start := find_object_startFuel fuel c models_pos.toNat
                if models_object_start = -1 then none
                else
                  let models_object_end := find_object_endFuel fuel c models_object_start.toNat
                  some (models_object_start.toNat, models_object_end)

/-- `update_models_section` with every loop's fuel made a parameter. -/
def update_models_sectionFuel (fuel : Nat) (c new_models : List Char) :
    Except String (List Char) :=
  match find_models_sectionFuel fuel c with
  | none => Except.error "Could not find models section in provider.nanogpt"
  | some (models_start, models_end) =>
    Except.ok (c.take (models_start + 1) ++ new_models ++ c.drop models_end)

/-- Scenario A document from the spec. -/
def scenarioA : List Char :=
  "\x7b\"provider\":\x7b\"nanogpt\":\x7b\"models\":\x7b\"x\":1\x7d\x7d\x7d\x7d".data

/-- Scenario D replacement payload from the spec. -/
def payloadY : List Char := "\x7b\"y\":2\x7d".data

/-- Scenario C document from the spec: the models value is an array. -/
def arrayDoc : List Char :=
  "\x7b\"provider\":\x7b\"nanogpt\":\x7b\"models\":[1,2,3]\x7d\x7d\x7d".data

/-- A document whose only occurrence of the quoted models token sits inside a
line comment. -/
def commentDoc : List Char := "// \"models\"".data

/-- A value that opens with a square bracket, as an array value does. -/
def arraySnippet : List Char := "[1,2,3]".data

/-- A document consisting of a single unterminated opening brace. -/
def braceDoc : List Char := [lbrace]

/-- A one-character document used to instantiate the fuel-independence
statement. -/
def xDoc : List Char := "x".data

/-- Modelled from the spec (§4.1): the number of characters a string scan
consumes before and including the closing quote `q`, scanning the characters
after the opening quote; a backslash followed by another character consumes
both; `none` when the string never closes. -/
def specStringClose (q : Char) : List Char → Option Nat
  | [] => none
  | [a] => if a = q then some 1 else none
  | a :: b :: rest =>
    if a = bslash then (specStringClose q rest).map (· + 2)
    else if a = q then some 1
    else (specStringClose q (b :: rest)).map (· + 1)

/-- Modelled from the spec (§4.1): the offset just past the closing quote of
a string whose body starts at `i`, or end-of-document when unterminated. -/
def specStringEnd (c : List Char) (q : Char) (i : Nat) : Nat :=
  match specStringClose q (c.drop i) with
  | some k => i + k
  | none => c.length

/-- Modelled from the spec (§4.1): the index, relative to `l`, of the first
occurrence of `pat` in `l`, found by walking the list. -/
def firstSubFrom (pat : List Char) : List Char → Option Nat
  | [] => if prefixMatches pat [] then some 0 else none
  | a :: t => if prefixMatches pat (a :: t) then some 0 else (firstSubFrom pat t).map (· + 1)

/-- Modelled from the spec (§4.1 Lexical Skipper): at a line comment, the
offset just past the next newline or end-of-document; at a block comment, the
offset just past the next closing delimiter or end-of-document; at a quote,
the offset just past the matching unescaped closing quote or end-of-document;
otherwise the position unchanged. -/
def specSkip (c : List Char) (i : Nat) : Nat :=
  if sliceEq c i ['/', '/'] then
    match firstSubFrom ['\n'] (c.drop i) with
    | some k => i + k + 1
    | none => c.length
  else if sliceEq c i ['/', '*'] then
    match firstSubFrom ['*', '/'] (c.drop (i + 2)) with
    | some k => i + 2 + k + 2
    | none => c.length
  else if c.get? i = some dquote then specStringEnd c dquote (i + 1)
  else if c.get? i = some squote then specStringEnd c squote (i + 1)
  else i

/-- Modelled from the spec (§4.3): the first structural bracket reached by
the forward scan from `i` with comments and strings skipped, mirroring the
loop of `find_object_start` but remembering which bracket stopped it. -/
def firstStructuralAux (c : List Char) : Nat → Nat → Option Char
  | 0, _ => none
  | fuel + 1, i =>
    if i < c.length then
      let ni := skip_comment_or_string c i
      if ni ≠ i then firstStructuralAux c fuel ni
      else if c.get? i = some lbrace then some lbrace
      else if c.get? i = some '[' then some '['
      else firstStructuralAux c fuel (i + 1)
    else none

/-- The first structural bracket at or after `i`, comments and strings
skipped; `none` when the document ends first. -/
def firstStructural (c : List Char) (i : Nat) : Option Char :=
  firstStructuralAux c (c.length + 1) i

/-- Modelled from the spec (§4.3 and §7): whether the depth counter of the
closing-brace scan starting inside the object opened at `start` ever returns
to zero before end-of-document.  Mirrors the loop of `find_object_end`. -/
def closesAux (c : List Char) : Nat → Nat → Nat → Bool
  | 0, _, _ => false
  | fuel + 1, i, d =>
    if i < c.length ∧ 0 < d then
      let ni := skip_comment_or_string c i
      if ni ≠ i then closesAux c fuel ni d
      else if c.get? i = some lbrace then closesAux c fuel (i + 1) (d + 1)
      else if c.get? i = some rbrace then
        if d - 1 = 0 then true else closesAux c fuel (i + 1) (d - 1)
      else closesAux c fuel (i + 1) d
    else false

/-- Whether the brace opened at `start` is ever closed by the scan of
`find_object_end`. -/
def closes (c : List Char) (start : Nat) : Bool :=
  closesAux c (c.length + 1) (start + 1) 1

/-! ### Basic bridging lemmas -/

theorem get?_of_lt (c : List Char) (i : Nat) (h : i < c.length) :
    c.get? i = some (c.get ⟨i, h⟩) := List.get?_eq_get h

theorem lt_of_get?_eq_some (c : List Char) (i : Nat) (x : Char)
    (h : c.get? i = some x) : i < c.length := by
  by_contra hh
  push_neg at hh
  rw [List.get?_eq_none.mpr hh] at h
  cases h

theorem prefixMatches_false_of_short (pat l : List Char)
    (h : l.length < pat.length) : prefixMatches pat l = false := by
  simp only [prefixMatches, decide_eq_false_iff_not]
  intro hEq
  have := congrArg List.length hEq
  simp only [List.length_take] at this
  omega

theorem firstSubFrom_none_of_short (pat l : List Char)
    (h : l.length < pat.length) : firstSubFrom pat l = none := by
  induction l with
  | nil => simp [firstSubFrom, prefixMatches_false_of_short pat [] h]
  | cons a t ih =>
    have ht : t.length < pat.length := by
      simp only [List.length_cons] at h
      omega
    simp [firstSubFrom, prefixMatches_false_of_short pat (a :: t) h, ih ht]

theorem firstSubFrom_some_le (pat : List Char) :
    ∀ (l : List Char) (k : Nat), firstSubFrom pat l = some k →
    k + pat.length ≤ l.length := by
  intro l
  induction l with
  | nil =>
    intro k h
    simp only [firstSubFrom] at h
    by_cases hp : prefixMatches pat []
    · rw [if_pos hp] at h
      simp only [prefixMatches, decide_eq_true_eq, List.take_nil] at hp
      cases h
      simp [← hp]
    · rw [if_neg hp] at h
      cases h
  | cons a t ih =>
    intro k h
    simp only [firstSubFrom] at h
    by_cases hp : prefixMatches pat (a :: t)
    · rw [if_pos hp] at h
      cases h
      simp only [prefixMatches, decide_eq_true_eq] at hp
      have := congrArg List.length hp
      simp only [List.length_take, List.length_cons] at this
      simp only [List.length_cons]
      omega
    · rw [if_neg hp] at h
      cases hfs : firstSubFrom pat t with
      | none => rw [hfs] at h; cases h
      | some k' =>
        rw [hfs] at h
        simp only [Option.map_some'] at h
        cases h
        have := ih k' hfs
        simp only [List.length_cons]
        omega

theorem specStringClose_some_le (q : Char) :
    ∀ (n : Nat) (l : List Char), l.length ≤ n → ∀ (k : Nat),
    specStringClose q l = some k → k ≤ l.length := by
  intro n
  induction n with
  | zero =>
    intro l hl k h
    match l with
    | [] => cases h
    | a :: t => simp at hl
  | succ n ih =>
    intro l hl k h
    match l with
    | [] => cases h
    | [a] =>
      simp only [specStringClose] at h
      by_cases ha : a = q
      · rw [if_pos ha] at h; cases h; simp
      · rw [if_neg ha] at h; cases h
    | a :: b :: rest =>
      simp only [specStringClose] at h
      by_cases h1 : a = bslash
      · rw [if_pos h1] at h
        cases hr : specStringClose q rest with
        | none => rw [hr] at h; cases h
        | some k' =>
          rw [hr] at h
          simp only [Option.map_some'] at h
          cases h
          have := ih rest (by simp at hl; omega) k' hr
          simp only [List.length_cons]
          omega
      · rw [if_neg h1] at h
        by_cases h2 : a = q
        · rw [if_pos h2] at h; cases h; simp
        · rw [if_neg h2] at h
          cases hr : specStringClose q (b :: rest) with
          | none => rw [hr] at h; cases h
          | some k' =>
            rw [hr] at h
            simp only [Option.map_some'] at h
            cases h
            have := ih (b :: rest) (by simp at hl ⊢; omega) k' hr
            simp only [List.length_cons] at this ⊢
            omega

theorem sliceEq_head (c : List Char) (i : Nat) (a : Char) (pat : List Char)
    (h : sliceEq c i (a :: pat) = true) :
    i < c.length ∧ c.get? i = some a := by
  simp only [sliceEq, prefixMatches, decide_eq_true_eq] at h
  have hlen : i < c.length := by
    by_contra hh
    push_neg at hh
    rw [List.drop_eq_nil_of_le hh] at h
    simp at h
  refine ⟨hlen, ?_⟩
  have hd : c.drop i = c.get ⟨i, hlen⟩ :: c.drop (i + 1) := List.drop_eq_getElem_cons hlen
  rw [hd, List.length_cons, List.take_succ_cons] at h
  rw [get?_of_lt c i hlen]
  exact congrArg some (List.head_eq_of_cons_eq h)


/-! ### Correspondence of the fueled scans with the spec-side functions -/

theorem pyFindAux_eq (c pat : List Char) (hpat : 0 < pat.length) :
    ∀ (fuel j : Nat), c.length < fuel + j →
    pyFindAux c pat fuel j =
      (match firstSubFrom pat (c.drop j) with
       | some k => ((j + k : Nat) : Int)
       | none => -1) := by
  intro fuel
  induction fuel with
  | zero =>
    intro j h
    have hd : c.drop j = [] := List.drop_eq_nil_of_le (by omega)
    have hn : firstSubFrom pat (c.drop j) = none := by
      rw [hd]
      exact firstSubFrom_none_of_short pat [] (by simpa using hpat)
    rw [hn]
    rfl
  | succ fuel ih =>
    intro j h
    by_cases hlen : c.length < j + pat.length
    · have hn : firstSubFrom pat (c.drop j) = none :=
        firstSubFrom_none_of_short pat _ (by rw [List.length_drop]; omega)
      rw [hn]
      simp only [pyFindAux]
      rw [if_pos hlen]
    · push_neg at hlen
      have hj : j < c.length := by omega
      have hd : c.drop j = c.get ⟨j, hj⟩ :: c.drop (j + 1) := List.drop_eq_getElem_cons hj
      simp only [pyFindAux]
      rw [if_neg (by omega : ¬ c.length < j + pat.length)]
      by_cases hm : sliceEq c j pat = true
      · rw [if_pos hm]
        have hp : prefixMatches pat (c.get ⟨j, hj⟩ :: c.drop (j + 1)) = true := by
          rw [← hd]; exact hm
        rw [hd]
        simp only [firstSubFrom, hp, if_true]
        simp
      · rw [if_neg hm]
        rw [ih (j + 1) (by omega)]
        have hp : prefixMatches pat (c.get ⟨j, hj⟩ :: c.drop (j + 1)) = false := by
          rw [← hd]
          simpa using hm
        rw [hd]
        simp only [firstSubFrom, hp]
        cases hfs : firstSubFrom pat (c.drop (j + 1)) with
        | none => simp [hfs]
        | some k =>
          simp only [hfs, Option.map_some']
          simp only [Bool.false_eq_true, if_false]
          push_cast
          ring

theorem skipStringAux_eq (c : List Char) (q : Char) :
    ∀ (fuel i : Nat), i ≤ c.length → c.length < fuel + i →
    skipStringAux c q fuel i = specStringEnd c q i := by
  intro fuel
  induction fuel with
  | zero =>
    intro i h1 h2
    omega
  | succ fuel ih =>
    intro i h1 h2
    by_cases hi : i < c.length
    case neg =>
      have hieq : i = c.length := by omega
      subst hieq
      simp only [skipStringAux]
      rw [if_neg (lt_irrefl _)]
      simp [specStringEnd, List.drop_length, specStringClose]
    case pos =>
      have hd : c.drop i = c.get ⟨i, hi⟩ :: c.drop (i + 1) := List.drop_eq_getElem_cons hi
      simp only [skipStringAux]
      rw [if_pos hi]
      by_cases hbs : c.get? i = some bslash ∧ i + 1 < c.length
      · rw [if_pos hbs]
        obtain ⟨hb, hlt⟩ := hbs
        have hd2 : c.drop (i + 1) = c.get ⟨i + 1, hlt⟩ :: c.drop (i + 2) :=
          List.drop_eq_getElem_cons hlt
        have hci : c.get ⟨i, hi⟩ = bslash := by
          rw [get?_of_lt c i hi] at hb
          exact Option.some.inj hb
        rw [ih (i + 2) (by omega) (by omega)]
        simp only [specStringEnd, hd, hd2, specStringClose]
        rw [if_pos hci]
        cases hsc : specStringClose q (c.drop (i + 2)) with
        | none => simp [hsc]
        | some k => simp [hsc]; omega
      · rw [if_neg hbs]
        by_cases hq : c.get? i = some q
        · rw [if_pos hq]
          have hci : c.get ⟨i, hi⟩ = q := by
            rw [get?_of_lt c i hi] at hq
            exact Option.some.inj hq
          simp only [specStringEnd, hd]
          by_cases h2i : i + 1 < c.length
          · have hd2 : c.drop (i + 1) = c.get ⟨i + 1, h2i⟩ :: c.drop (i + 2) :=
              List.drop_eq_getElem_cons h2i
            have hnb : ¬ (c.get ⟨i, hi⟩ = bslash) := by
              intro hc
              exact hbs ⟨by rw [get?_of_lt c i hi, hc], h2i⟩
            rw [hd2]
            simp only [specStringClose]
            rw [if_neg hnb, if_pos hci]
          · have hd2 : c.drop (i + 1) = [] := List.drop_eq_nil_of_le (by omega)
            rw [hd2]
            simp only [specStringClose]
            rw [if_pos hci]
        · rw [if_neg hq]
          have hciq : ¬ (c.get ⟨i, hi⟩ = q) := by
            intro hc
            exact hq (by rw [get?_of_lt c i hi, hc])
          rw [ih (i + 1) (by omega) (by omega)]
          simp only [specStringEnd, hd]
          by_cases h2i : i + 1 < c.length
          · have hd2 : c.drop (i + 1) = c.get ⟨i + 1, h2i⟩ :: c.drop (i + 2) :=
              List.drop_eq_getElem_cons h2i
            have hnb : ¬ (c.get ⟨i, hi⟩ = bslash) := by
              intro hc
              exact hbs ⟨by rw [get?_of_lt c i hi, hc], h2i⟩
            conv_rhs => rw [hd2]
            conv_rhs => simp only [specStringClose]
            rw [if_neg hnb, if_neg hciq]
            rw [← hd2]
            cases hsc : specStringClose q (c.drop (i + 1)) with
            | none => simp [hsc]
            | some k =>
              simp [hsc]
              omega
          · have hd2 : c.drop (i + 1) = [] := List.drop_eq_nil_of_le (by omega)
            rw [hd2]
            simp only [specStringClose]
            rw [if_neg hciq]

theorem skip_eq_specSkip (c : List Char) (i : Nat) :
    skip_comment_or_string c i = specSkip c i := by
  by_cases hlen : c.length ≤ i
  · have hdnil : c.drop i = [] := List.drop_eq_nil_of_le hlen
    have e1 : sliceEq c i ['/', '/'] = false := by
      simp only [sliceEq, hdnil]; rfl
    have e2 : sliceEq c i ['/', '*'] = false := by
      simp only [sliceEq, hdnil]; rfl
    have e3 : c.get? i = none := List.get?_eq_none.mpr hlen
    simp only [skip_comment_or_string, specSkip]
    rw [if_pos hlen, e1, e2, e3]
    simp
  · push_neg at hlen
    simp only [skip_comment_or_string, specSkip, pyFind, skipString]
    rw [if_neg (by omega : ¬ c.length ≤ i)]
    by_cases h1 : sliceEq c i ['/', '/'] = true
    · rw [if_pos h1, if_pos h1]
      rw [pyFindAux_eq c ['\n'] (by simp) (c.length + 1) i (by omega)]
      cases hfs : firstSubFrom ['\n'] (c.drop i) with
      | none => simp [hfs]
      | some k =>
        simp only [hfs]
        rw [if_neg (by omega : ¬ ((i + k : Nat) : Int) = -1)]
        simp only [Int.toNat_natCast]
    · rw [if_neg h1, if_neg h1]
      by_cases h2 : sliceEq c i ['/', '*'] = true
      · rw [if_pos h2, if_pos h2]
        rw [pyFindAux_eq c ['*', '/'] (by simp) (c.length + 1) (i + 2) (by omega)]
        cases hfs : firstSubFrom ['*', '/'] (c.drop (i + 2)) with
        | none => simp [hfs]
        | some k =>
          simp only [hfs]
          rw [if_neg (by omega : ¬ ((i + 2 + k : Nat) : Int) = -1)]
          simp only [Int.toNat_natCast]
      · rw [if_neg h2, if_neg h2]
        by_cases h3 : c.get? i = some dquote
        · rw [if_pos h3, if_pos h3]
          exact skipStringAux_eq c dquote (c.length + 1) (i + 1) (by omega) (by omega)
        · rw [if_neg h3, if_neg h3]
          by_cases h4 : c.get? i = some squote
          · rw [if_pos h4, if_pos h4]
            exact skipStringAux_eq c squote (c.length + 1) (i + 1) (by omega) (by omega)
          · rw [if_neg h4, if_neg h4]

/-! ### Bounds for the skipper -/

theorem specSkip_bounds (c : List Char) (i : Nat) :
    i ≤ specSkip c i ∧ specSkip c i ≤ max c.length i := by
  unfold specSkip
  by_cases h1 : sliceEq c i ['/', '/'] = true
  · rw [if_pos h1]
    have hi : i < c.length := (sliceEq_head c i '/' ['/'] h1).1
    cases hfs : firstSubFrom ['\n'] (c.drop i) with
    | none => exact ⟨Nat.le_of_lt hi, le_max_left _ _⟩
    | some k =>
      have hk := firstSubFrom_some_le ['\n'] _ k hfs
      rw [List.length_drop] at hk
      simp only [List.length_cons, List.length_nil] at hk
      constructor
      · show i ≤ i + k + 1
        omega
      · show i + k + 1 ≤ max c.length i
        exact le_trans (by omega : i + k + 1 ≤ c.length) (le_max_left _ _)
  · rw [if_neg h1]
    by_cases h2 : sliceEq c i ['/', '*'] = true
    · rw [if_pos h2]
      have hi : i < c.length := (sliceEq_head c i '/' ['*'] h2).1
      cases hfs : firstSubFrom ['*', '/'] (c.drop (i + 2)) with
      | none => exact ⟨Nat.le_of_lt hi, le_max_left _ _⟩
      | some k =>
        have hk := firstSubFrom_some_le ['*', '/'] _ k hfs
        rw [List.length_drop] at hk
        simp only [List.length_cons, List.length_nil] at hk
        constructor
        · show i ≤ i + 2 + k + 2
          omega
        · show i + 2 + k + 2 ≤ max c.length i
          exact le_trans (by omega : i + 2 + k + 2 ≤ c.length) (le_max_left _ _)
    · rw [if_neg h2]
      by_cases h3 : c.get? i = some dquote
      · rw [if_pos h3]
        have hi : i < c.length := lt_of_get?_eq_some c i dquote h3
        unfold specStringEnd
        cases hsc : specStringClose dquote (c.drop (i + 1)) with
        | none => exact ⟨Nat.le_of_lt hi, le_max_left _ _⟩
        | some k =>
          have hk := specStringClose_some_le dquote (c.drop (i + 1)).length _ le_rfl k hsc
          rw [List.length_drop] at hk
          constructor
          · show i ≤ i + 1 + k
            omega
          · show i + 1 + k ≤ max c.length i
            exact le_trans (by omega : i + 1 + k ≤ c.length) (le_max_left _ _)
      · rw [if_neg h3]
        by_cases h4 : c.get? i = some squote
        · rw [if_pos h4]
          have hi : i < c.length := lt_of_get?_eq_some c i squote h4
          unfold specStringEnd
          cases hsc : specStringClose squote (c.drop (i + 1)) with
          | none => exact ⟨Nat.le_of_lt hi, le_max_left _ _⟩
          | some k =>
            have hk := specStringClose_some_le squote (c.drop (i + 1)).length _ le_rfl k hsc
            rw [List.length_drop] at hk
            constructor
            · show i ≤ i + 1 + k
              omega
            · show i + 1 + k ≤ max c.length i
              exact le_trans (by omega : i + 1 + k ≤ c.length) (le_max_left _ _)
        · rw [if_neg h4]
          exact ⟨le_refl i, le_max_right _ _⟩

theorem skip_ge (c : List Char) (i : Nat) : i ≤ skip_comment_or_string c i := by
  rw [skip_eq_specSkip]
  exact (specSkip_bounds c i).1

theorem skip_le_max (c : List Char) (i : Nat) :
    skip_comment_or_string c i ≤ max c.length i := by
  rw [skip_eq_specSkip]
  exact (specSkip_bounds c i).2

theorem skip_le (c : List Char) (i : Nat) (h : i ≤ c.length) :
    skip_comment_or_string c i ≤ c.length := by
  have hm := skip_le_max c i
  rwa [Nat.max_eq_left h] at hm

theorem skipStringAux_ge (c : List Char) (q : Char) :
    ∀ (fuel i : Nat), i ≤ skipStringAux c q fuel i := by
  intro fuel
  induction fuel with
  | zero => intro i; exact le_refl i
  | succ fuel ih =>
    intro i
    simp only [skipStringAux]
    by_cases hi : i < c.length
    · rw [if_pos hi]
      by_cases hb : c.get? i = some bslash ∧ i + 1 < c.length
      · rw [if_pos hb]
        exact le_trans (by omega) (ih (i + 2))
      · rw [if_neg hb]
        by_cases hq2 : c.get? i = some q
        · rw [if_pos hq2]
          omega
        · rw [if_neg hq2]
          exact le_trans (by omega) (ih (i + 1))
    · rw [if_neg hi]

/-! ### The key locator never matches: the skipper consumes the quote that
starts the key token before the pattern test can run -/

theorem skip_advances_at_dquote (c : List Char) (i : Nat)
    (h : c.get? i = some dquote) : i < skip_comment_or_string c i := by
  have hi : i < c.length := lt_of_get?_eq_some c i dquote h
  have e1 : sliceEq c i ['/', '/'] = false := by
    cases hB : sliceEq c i ['/', '/'] with
    | false => rfl
    | true =>
      obtain ⟨_, hg⟩ := sliceEq_head c i '/' ['/'] hB
      rw [h] at hg
      exact absurd (Option.some.inj hg) (by decide)
  have e2 : sliceEq c i ['/', '*'] = false := by
    cases hB : sliceEq c i ['/', '*'] with
    | false => rfl
    | true =>
      obtain ⟨_, hg⟩ := sliceEq_head c i '/' ['*'] hB
      rw [h] at hg
      exact absurd (Option.some.inj hg) (by decide)
  simp only [skip_comment_or_string, skipString]
  rw [if_neg (by omega : ¬ c.length ≤ i), e1, e2]
  simp only [Bool.false_eq_true, if_false]
  rw [if_pos h]
  exact lt_of_lt_of_le (by omega) (skipStringAux_ge c dquote (c.length + 1) (i + 1))

theorem fkpAux_dquote_head (c key : List Char) :
    ∀ (fuel i : Nat), fkpAux c (dquote :: key) fuel i = -1 := by
  intro fuel
  induction fuel with
  | zero => intro i; rfl
  | succ fuel ih =>
    intro i
    simp only [fkpAux]
    by_cases hi : i < c.length
    · rw [if_pos hi]
      by_cases hni : skip_comment_or_string c i ≠ i
      · rw [if_pos hni]
        exact ih _
      · rw [if_neg hni]
        push_neg at hni
        have hm : sliceEq c i (dquote :: key) = false := by
          cases hB : sliceEq c i (dquote :: key) with
          | false => rfl
          | true =>
            have hg := (sliceEq_head c i dquote key hB).2
            have := skip_advances_at_dquote c i hg
            omega
        rw [hm]
        simp only [Bool.false_eq_true, if_false]
        exact ih _
    · rw [if_neg hi]

theorem find_key_position_eq_neg_one (c key : List Char) (start : Nat) :
    find_key_position c key start = -1 :=
  fkpAux_dquote_head c (key ++ [dquote]) (c.length + 1) start

theorem find_models_section_eq_none (c : List Char) :
    find_models_section c = none := by
  simp [find_models_section, find_key_position_eq_neg_one]

theorem update_models_section_eq_error (c m : List Char) :
    update_models_section c m =
      Except.error "Could not find models section in provider.nanogpt" := by
  simp [update_models_section, find_models_section_eq_none]

/-! ### Bracket matcher lemmas -/

theorem fosAux_eq_neg_one_of_bracket (c : List Char) :
    ∀ (fuel i : Nat), firstStructuralAux c fuel i = some '[' →
    fosAux c fuel i = -1 := by
  intro fuel
  induction fuel with
  | zero => intro i h; cases h
  | succ fuel ih =>
    intro i h
    simp only [firstStructuralAux] at h
    simp only [fosAux]
    by_cases hi : i < c.length
    · rw [if_pos hi] at h ⊢
      by_cases hni : skip_comment_or_string c i ≠ i
      · rw [if_pos hni] at h ⊢
        exact ih _ h
      · rw [if_neg hni] at h ⊢
        by_cases hbl : c.get? i = some lbrace
        · rw [if_pos hbl] at h
          exact absurd (Option.some.inj h) (by decide)
        · rw [if_neg hbl] at h ⊢
          by_cases hbk : c.get? i = some '['
          · rw [if_pos hbk]
          · rw [if_neg hbk] at h ⊢
            exact ih _ h
    · rw [if_neg hi] at h
      cases h

theorem foeAux_eq_length_of_not_closes (c : List Char) :
    ∀ (fuel i d : Nat), i ≤ c.length → c.length < fuel + i → 0 < d →
    closesAux c fuel i d = false → foeAux c fuel i d = c.length := by
  intro fuel
  induction fuel with
  | zero =>
    intro i d h1 h2 h3 h4
    omega
  | succ fuel ih =>
    intro i d h1 h2 h3 hc
    simp only [closesAux] at hc
    simp only [foeAux]
    by_cases hi : i < c.length ∧ 0 < d
    · rw [if_pos hi] at hc ⊢
      by_cases hni : skip_comment_or_string c i ≠ i
      · rw [if_pos hni] at hc ⊢
        have hgt : i < skip_comment_or_string c i :=
          lt_of_le_of_ne (skip_ge c i) (Ne.symm hni)
        exact ih _ d (skip_le c i (by omega)) (by have := skip_le c i (by omega); omega) h3 hc
      · rw [if_neg hni] at hc ⊢
        by_cases hbl : c.get? i = some lbrace
        · rw [if_pos hbl] at hc ⊢
          exact ih _ _ (by omega) (by omega) (by omega) hc
        · rw [if_neg hbl] at hc ⊢
          by_cases hbr : c.get? i = some rbrace
          · rw [if_pos hbr] at hc ⊢
            by_cases hd1 : d - 1 = 0
            · rw [if_pos hd1] at hc
              cases hc
            · rw [if_neg hd1] at hc ⊢
              exact ih _ _ (by omega) (by omega) (by omega) hc
          · rw [if_neg hbr] at hc ⊢
            exact ih _ _ (by omega) (by omega) h3 hc
    · rw [if_neg hi] at hc ⊢
      have hnl : ¬ i < c.length := fun hlt => hi ⟨hlt, h3⟩
      omega

/-! ### Fuel independence of the key-locator loop -/

theorem fkpAux_fuel_invariant (c pat : List Char) :
    ∀ (f1 f2 i : Nat), c.length < f1 + i → c.length < f2 + i →
    fkpAux c pat f1 i = fkpAux c pat f2 i := by
  intro f1
  induction f1 with
  | zero =>
    intro f2 i h1 h2
    cases f2 with
    | zero => rfl
    | succ f2 =>
      simp only [fkpAux]
      rw [if_neg (by omega : ¬ i < c.length)]
  | succ f1 ih =>
    intro f2 i h1 h2
    cases f2 with
    | zero =>
      simp only [fkpAux]
      rw [if_neg (by omega : ¬ i < c.length)]
    | succ f2 =>
      simp only [fkpAux]
      by_cases hi : i < c.length
      · rw [if_pos hi, if_pos hi]
        by_cases hni : skip_comment_or_string c i ≠ i
        · rw [if_pos hni, if_pos hni]
          have hgt : i < skip_comment_or_string c i :=
            lt_of_le_of_ne (skip_ge c i) (Ne.symm hni)
          exact ih f2 _ (by omega) (by omega)
        · rw [if_neg hni, if_neg hni]
          by_cases hm : sliceEq c i pat = true
          · rw [if_pos hm, if_pos hm]
          · rw [if_neg hm, if_neg hm]
            exact ih f2 _ (by omega) (by omega)
      · rw [if_neg hi, if_neg hi]

theorem fosAux_fuel_invariant (c : List Char) :
    ∀ (f1 f2 i : Nat), c.length < f1 + i → c.length < f2 + i →
    fosAux c f1 i = fosAux c f2 i := by
  intro f1
  induction f1 with
  | zero =>
    intro f2 i h1 h2
    cases f2 with
    | zero => rfl
    | succ f2 =>
      simp only [fosAux]
      rw [if_neg (by omega : ¬ i < c.length)]
  | succ f1 ih =>
    intro f2 i h1 h2
    cases f2 with
    | zero =>
      simp only [fosAux]
      rw [if_neg (by omega : ¬ i < c.length)]
    | succ f2 =>
      simp only [fosAux]
      by_cases hi : i < c.length
      · rw [if_pos hi, if_pos hi]
        by_cases hni : skip_comment_or_string c i ≠ i
        · rw [if_pos hni, if_pos hni]
          have hgt : i < skip_comment_or_string c i :=
            lt_of_le_of_ne (skip_ge c i) (Ne.symm hni)
          exact ih f2 _ (by omega) (by omega)
        · rw [if_neg hni, if_neg hni]
          by_cases hbl : c.get? i = some lbrace
          · rw [if_pos hbl, if_pos hbl]
          · rw [if_neg hbl, if_neg hbl]
            by_cases hbk : c.get? i = some '['
            · rw [if_pos hbk, if_pos hbk]
            · rw [if_neg hbk, if_neg hbk]
              exact ih f2 _ (by omega) (by omega)
      · rw [if_neg hi, if_neg hi]

theorem foeAux_fuel_invariant (c : List Char) :
    ∀ (f1 f2 i d : Nat), c.length < f1 + i → c.length < f2 + i →
    foeAux c f1 i d = foeAux c f2 i d := by
  intro f1
  induction f1 with
  | zero =>
    intro f2 i d h1 h2
    cases f2 with
    | zero => rfl
    | succ f2 =>
      simp only [foeAux]
      have hnc : ¬ (i < c.length ∧ 0 < d) := fun hc => absurd hc.1 (by omega)
      rw [if_neg hnc]
  | succ f1 ih =>
    intro f2 i d h1 h2
    cases f2 with
    | zero =>
      simp only [foeAux]
      have hnc : ¬ (i < c.length ∧ 0 < d) := fun hc => absurd hc.1 (by omega)
      rw [if_neg hnc]
    | succ f2 =>
      simp only [foeAux]
      by_cases hc0 : i < c.length ∧ 0 < d
      · rw [if_pos hc0, if_pos hc0]
        by_cases hni : skip_comment_or_string c i ≠ i
        · rw [if_pos hni, if_pos hni]
          have hgt : i < skip_comment_or_string c i :=
            lt_of_le_of_ne (skip_ge c i) (Ne.symm hni)
          exact ih f2 _ d (by omega) (by omega)
        · rw [if_neg hni, if_neg hni]
          by_cases hbl : c.get? i = some lbrace
          · rw [if_pos hbl, if_pos hbl]
            exact ih f2 _ _ (by omega) (by omega)
          · rw [if_neg hbl, if_neg hbl]
            by_cases hbr : c.get? i = some rbrace
            · rw [if_pos hbr, if_pos hbr]
              by_cases hd1 : d - 1 = 0
              · rw [if_pos hd1, if_pos hd1]
              · rw [if_neg hd1, if_neg hd1]
                exact ih f2 _ _ (by omega) (by omega)
            · rw [if_neg hbr, if_neg hbr]
              exact ih f2 _ _ (by omega) (by omega)
      · rw [if_neg hc0, if_neg hc0]

theorem find_key_positionFuel_eq (f : Nat) (c : List Char) (h : c.length < f) :
    ∀ (key : List Char) (start : Nat),
    find_key_positionFuel f c key start = find_key_position c key start := by
  intro key start
  exact fkpAux_fuel_invariant c _ f (c.length + 1) start (by omega) (by omega)

theorem find_object_startFuel_eq (f : Nat) (c : List Char) (h : c.length < f) :
    ∀ (key_pos : Nat),
    find_object_startFuel f c key_pos = find_object_start c key_pos := by
  intro key_pos
  exact fosAux_fuel_invariant c f (c.length + 1) key_pos (by omega) (by omega)

theorem find_object_endFuel_eq (f : Nat) (c : List Char) (h : c.length < f) :
    ∀ (start : Nat),
    find_object_endFuel f c start = find_object_end c start := by
  intro start
  exact foeAux_fuel_invariant c f (c.length + 1) (start + 1) 1 (by omega) (by omega)

theorem find_models_sectionFuel_eq (f : Nat) (c : List Char) (h : c.length < f) :
    find_models_sectionFuel f c = find_models_section c := by
  unfold find_models_sectionFuel find_models_section
  simp only [find_key_positionFuel_eq f c h, find_object_startFuel_eq f c h,
    find_object_endFuel_eq f c h]

theorem update_models_sectionFuel_eq (f : Nat) (c m : List Char) (h : c.length < f) :
    update_models_sectionFuel f c m = update_models_section c m := by
  unfold update_models_sectionFuel update_models_section
  rw [find_models_sectionFuel_eq f c h]

/-! ### Claim theorems -/

/-- C1: the claim states that on the document of Scenario A,
`find_models_section` returns a span covering the models object.  The code
does not: `find_key_position` lets the skipper consume the key's own quoted
token before the pattern test, so no key is ever located and the function
returns `none` on this document. -/
theorem claim1_scenarioA_returns_none :
    find_models_section scenarioA = none :=
  find_models_section_eq_none scenarioA

/-- C2: the claim states that splicing the Scenario D payload into the
Scenario A document yields the updated document.  The code instead raises:
`update_models_section` propagates the failed resolution as an error on this
very input. -/
theorem claim2_scenarioD_raises :
    update_models_section scenarioA payloadY =
      Except.error "Could not find models section in provider.nanogpt" :=
  update_models_section_eq_error scenarioA payloadY

/-- C3: the claim guards its brace-balance guarantee on
`find_models_section` returning a span; in the code that guard is
unsatisfiable — for every document the resolver returns `none`, so no span
with the claimed properties is ever produced. -/
theorem claim3_no_span_ever :
    ∀ (c : List Char), find_models_section c = none :=
  find_models_section_eq_none

/-- C4: `skip_comment_or_string` behaves exactly as the spec describes —
it agrees with the spec-side `specSkip` (line comment to just past the next
newline or end, block comment to just past the closing delimiter or end,
string to just past the matching unescaped quote of the same kind or end,
otherwise unchanged), never moves backwards, and never leaves the document. -/
theorem claim4_skip_characterization :
    ∀ (c : List Char) (i : Nat),
      skip_comment_or_string c i = specSkip c i ∧
      i ≤ skip_comment_or_string c i ∧
      skip_comment_or_string c i ≤ max c.length i :=
  fun c i => ⟨skip_eq_specSkip c i, skip_ge c i, skip_le_max c i⟩

/-- C5: `find_key_position` never returns the offset of an occurrence of the
quoted models token — in particular one inside a comment or string — since
the scan never reports any offset where the token occurs. -/
theorem claim5_key_locator_immune :
    ∀ (c : List Char) (start j : Nat),
      sliceEq c j (dquote :: ("models".data ++ [dquote])) = true →
      find_key_position c "models".data start ≠ (j : Int) := by
  intro c start j _h
  rw [find_key_position_eq_neg_one]
  omega

/-- C5 witness: a concrete document with the models token inside a line
comment, on which the locator does not return that offset. -/
theorem claim5_witness :
    sliceEq commentDoc 3 (dquote :: ("models".data ++ [dquote])) = true ∧
    find_key_position commentDoc "models".data 0 ≠ (3 : Int) :=
  ⟨by decide, claim5_key_locator_immune commentDoc 0 3 (by decide)⟩

/-- C6: when the scan from a position meets a square bracket before any
opening brace, `find_object_start` answers `-1`; and on the Scenario C
document, whose models value is an array, `find_models_section` returns
`none` and `update_models_section` produces no output document. -/
theorem claim6_array_value_rejected :
    (∀ (c : List Char) (i : Nat), firstStructural c i = some '[' →
      find_object_start c i = -1) ∧
    find_models_section arrayDoc = none ∧
    (∀ (m : List Char), update_models_section arrayDoc m =
      Except.error "Could not find models section in provider.nanogpt") := by
  refine ⟨?_, find_models_section_eq_none arrayDoc,
    fun m => update_models_section_eq_error arrayDoc m⟩
  intro c i h
  exact fosAux_eq_neg_one_of_bracket c (c.length + 1) i h

/-- C6 witness: on a text that starts with an array, the first structural
bracket is the square bracket and the matcher answers `-1`. -/
theorem claim6_witness :
    firstStructural arraySnippet 0 = some '[' ∧
    find_object_start arraySnippet 0 = -1 :=
  ⟨by decide, claim6_array_value_rejected.1 arraySnippet 0 (by decide)⟩

/-- C7: `update_models_section` reports the not-found error exactly when
`find_models_section` resolves to `none`; on success it returns a complete
document, so error and success are mutually exclusive with no partial
substitution. -/
theorem claim7_error_iff_not_found :
    ∀ (c m : List Char),
      update_models_section c m =
        Except.error "Could not find models section in provider.nanogpt" ↔
      find_models_section c = none := by
  intro c m
  cases hf : find_models_section c with
  | none => simp [update_models_section, hf]
  | some p =>
    obtain ⟨s, e⟩ := p
    simp [update_models_section, hf]

/-- C8: the claim's frame guarantee quantifies over documents on which a
span is resolved; the code resolves none — `update_models_section` raises
on every input, so the guarantee never applies and no output document
exists whose prefix and suffix could be compared. -/
theorem claim8_update_never_produces_output :
    ∀ (c m : List Char),
      update_models_section c m =
        Except.error "Could not find models section in provider.nanogpt" :=
  update_models_section_eq_error

/-- C9: when the depth counter never returns to zero before the end of the
document, `find_object_end` returns the document length rather than raising
or looping. -/
theorem claim9_unterminated_returns_length :
    ∀ (c : List Char) (start : Nat), start < c.length →
      closes c start = false → find_object_end c start = c.length := by
  intro c start h1 h2
  exact foeAux_eq_length_of_not_closes c (c.length + 1) (start + 1) 1
    (by omega) (by omega) (by omega) h2

/-- C9 witness: a lone opening brace never closes, and the matcher returns
the document length for it. -/
theorem claim9_witness :
    0 < braceDoc.length ∧ closes braceDoc 0 = false ∧
    find_object_end braceDoc 0 = braceDoc.length :=
  ⟨by decide, by decide,
    claim9_unterminated_returns_length braceDoc 0 (by decide) (by decide)⟩

/-- C10: every function terminates on every input.  The skipper never moves
the cursor backwards and never moves it past the document, so the measure
`length - cursor` strictly decreases in each loop iteration; consequently
`find_key_position`, `find_object_start`, `find_object_end`, and with them
the composites `find_models_section` and `update_models_section`, compute
the same result under every sufficient loop fuel — the fueled embedding's
statement that each loop halts before exhausting its fuel. -/
theorem claim10_all_functions_terminate :
    ∀ (c key m : List Char) (i start f : Nat),
      (i ≤ skip_comment_or_string c i ∧
        skip_comment_or_string c i ≤ max c.length i) ∧
      (c.length < f →
        find_key_positionFuel f c key start = find_key_position c key start ∧
        find_object_startFuel f c start = find_object_start c start ∧
        find_object_endFuel f c start = find_object_end c start ∧
        find_models_sectionFuel f c = find_models_section c ∧
        update_models_sectionFuel f c m = update_models_section c m) :=
  fun c key m i start f =>
    ⟨⟨skip_ge c i, skip_le_max c i⟩,
      fun h =>
        ⟨find_key_positionFuel_eq f c h key start,
          find_object_startFuel_eq f c h start,
          find_object_endFuel_eq f c h start,
          find_models_sectionFuel_eq f c h,
          update_models_sectionFuel_eq f c m h⟩⟩

/-- C10 witness: on a concrete document, a different sufficient fuel gives
every scan, and both composites, the same result as the fixed fuel. -/
theorem claim10_witness :
    xDoc.length < 5 ∧
    (find_key_positionFuel 5 xDoc "y".data 0 = find_key_position xDoc "y".data 0 ∧
      find_object_startFuel 5 xDoc 0 = find_object_start xDoc 0 ∧
      find_object_endFuel 5 xDoc 0 = find_object_end xDoc 0 ∧
      find_models_sectionFuel 5 xDoc = find_models_section xDoc ∧
      update_models_sectionFuel 5 xDoc "z".data = update_models_section xDoc "z".data) :=
  ⟨by decide,
    (claim10_all_functions_terminate xDoc "y".data "z".data 0 0 5).2 (by decide)⟩
